import Mathlib

/-!
# Verification of the AI code-review bot pipeline (`src/reviewBot.ts`)

A shallow embedding of the review pipeline: the changed-file filter, the
ESLint adapter loop (`runESLint`), the comment assembler (`generateAIReview`
with `getAISuggestions`), the publisher (`postReviewComments`) and the
entry point (`reviewPullRequest`).  External collaborators (file system,
ESLint, the completion service, the GitHub API) are modelled as oracle
functions collected in an `Env`; thrown JS exceptions are modelled with
`Except`, and the sequence of external calls the run attempts is recorded
as an explicit action trace.
-/

namespace ReviewBot

/-- `ChangedFile` as returned by the change-set provider: filename, change
status (a string such as `"added"`, `"modified"`, `"removed"`) and an
optional unified-diff patch fragment. -/
structure ChangedFile where
  filename : String
  status : String
  patch : Option String
deriving DecidableEq, Repr

/-- One ESLint message: rule id (possibly null), numeric severity
(1 = warning, 2 = error), message text, line and column. -/
structure LintMessage where
  ruleId : Option String
  severity : Nat
  message : String
  line : Nat
  column : Nat
deriving DecidableEq, Repr

/-- One ESLint per-file result: the reported file path and its messages. -/
structure ESLintResult where
  filePath : String
  messages : List LintMessage
deriving DecidableEq, Repr

/-- `ReviewComment`: the unit the assembler produces and the publisher
consumes. -/
structure ReviewComment where
  path : String
  line : Nat
  body : String
deriving DecidableEq, Repr

/-! ## String helpers mirroring the JavaScript primitives used -/

/-- `listIsPre pat l` : `pat` is a leading segment of `l` (character
lists). -/
def listIsPre : List Char → List Char → Bool
  | [], _ => true
  | _ :: _, [] => false
  | a :: as, b :: bs => a == b && listIsPre as bs

/-- JS `String.prototype.includes`: `pat` occurs contiguously somewhere in
`l`. -/
def listHasSub (pat : List Char) : List Char → Bool
  | [] => pat.isEmpty
  | b :: bs => listIsPre pat (b :: bs) || listHasSub pat bs

/-- JS `includes` on strings. -/
def strIncludes (s pat : String) : Bool :=
  listHasSub pat.data s.data

/-- JS `endsWith`, and the effect of the anchored extension regexes
`/\.(ts|js|tsx|jsx)$/`: `t` is a trailing segment of `s`. -/
def strEndsWith (s t : String) : Bool :=
  listIsPre t.data.reverse s.data.reverse

/-- JS `String.prototype.split('/')` on the character list: segments
between `/` separators, with a single empty segment for the empty
string. -/
def splitSlashList : List Char → List (List Char)
  | [] => [[]]
  | c :: rest =>
    let r := splitSlashList rest
    if c = '/' then [] :: r
    else
      match r with
      | [] => [[c]]
      | h :: t => (c :: h) :: t

/-- JS `s.split('/')`. -/
def jsSplitSlash (s : String) : List String :=
  (splitSlashList s.data).map (fun l => ⟨l⟩)

/-- JS `toLowerCase` (ASCII range, which is all the pipeline compares). -/
def strToLower (s : String) : String :=
  ⟨s.data.map Char.toLower⟩

/-- JS `trim`: strip leading and trailing whitespace. -/
def jsTrim (s : String) : String :=
  ⟨(s.data.dropWhile Char.isWhitespace).reverse.dropWhile Char.isWhitespace |>.reverse⟩

/-- Value of a nonempty digit string (what JS `parseInt` returns on the
regex capture, which is guaranteed to be all digits). -/
def digitsToNat (cs : List Char) : Nat :=
  cs.foldl (fun n c => 10 * n + (c.toNat - 48)) 0

/-- JS `parseInt(s)` in base 10: skip leading whitespace, optional sign,
then a maximal run of digits; `none` models `NaN` (no digits found). -/
def jsParseInt (s : String) : Option Int :=
  let cs := s.data.dropWhile Char.isWhitespace
  let signAndRest : Bool × List Char :=
    match cs with
    | '-' :: t => (true, t)
    | '+' :: t => (false, t)
    | t => (false, t)
  let ds := signAndRest.2.takeWhile Char.isDigit
  if ds.isEmpty then none
  else some (if signAndRest.1 then -(digitsToNat ds : Int) else (digitsToNat ds : Int))

/-! ## The hunk-header regex

The source extracts the anchor line with
`file.patch?.match(/@@ -\d+,?\d* \+(\d+)/)`.  For this pattern the greedy
match is canonical (no digit group can usefully backtrack, since shrinking
a maximal digit run leaves a digit where a non-digit is required), so the
matcher below consumes maximally at each step and tries successive start
positions left to right, exactly as the JS engine does. -/

/-- Try to match `@@ -\d+,?\d* \+(\d+)` at the head of `cs`; on success
return the value of the captured digit group. -/
def hunkAt : List Char → Option Nat
  | '@' :: '@' :: ' ' :: '-' :: rest =>
    let d1 := rest.takeWhile Char.isDigit
    let r1 := rest.dropWhile Char.isDigit
    if d1.isEmpty then none
    else
      let r2 : List Char :=
        match r1 with
        | ',' :: t => t.dropWhile Char.isDigit
        | t => t
      match r2 with
      | ' ' :: '+' :: r3 =>
        let cap := r3.takeWhile Char.isDigit
        if cap.isEmpty then none else some (digitsToNat cap)
      | _ => none
  | _ => none

/-- Leftmost match of the anchor regex over the whole string (JS
`String.prototype.match` with an unanchored pattern). -/
def findHunk : List Char → Option Nat
  | [] => none
  | c :: cs =>
    match hunkAt (c :: cs) with
    | some n => some n
    | none => findHunk cs

/-- The anchor-line computation of `generateAIReview`: first regex capture
of the patch, defaulting to 1 when the patch is absent or has no match. -/
def anchorLine (patch : Option String) : Nat :=
  match patch with
  | none => 1
  | some p =>
    match findHunk p.data with
    | some n => n
    | none => 1

/-- Spec-side matcher, following the claim's wording rather than the
source: match a full unified-diff hunk header `@@ -a,b +c,d @@` (all four
numbers and the closing ` @@` required) at the head of `cs`, returning the
new-file start line `c`.  Used only to compare the claimed anchor rule with
the one the source implements. -/
def hunkFullAt : List Char → Option Nat
  | '@' :: '@' :: ' ' :: '-' :: rest =>
    let a := rest.takeWhile Char.isDigit
    let r1 := rest.dropWhile Char.isDigit
    if a.isEmpty then none
    else
      match r1 with
      | ',' :: r2 =>
        let b := r2.takeWhile Char.isDigit
        let r3 := r2.dropWhile Char.isDigit
        if b.isEmpty then none
        else
          match r3 with
          | ' ' :: '+' :: r4 =>
            let c := r4.takeWhile Char.isDigit
            let r5 := r4.dropWhile Char.isDigit
            if c.isEmpty then none
            else
              match r5 with
              | ',' :: r6 =>
                let d := r6.takeWhile Char.isDigit
                let r7 := r6.dropWhile Char.isDigit
                if d.isEmpty then none
                else
                  match r7 with
                  | ' ' :: '@' :: '@' :: _ => some (digitsToNat c)
                  | _ => none
              | _ => none
          | _ => none
      | _ => none
  | _ => none

/-- Spec-side scan: leftmost full-form hunk header in the string. -/
def findHunkFull : List Char → Option Nat
  | [] => none
  | c :: cs =>
    match hunkFullAt (c :: cs) with
    | some n => some n
    | none => findHunkFull cs

/-- Spec-side anchor rule as the claim words it: the `c` of the first
`@@ -a,b +c,d @@` hunk header found in the patch, defaulting to 1. -/
def specAnchorLine (patch : Option String) : Nat :=
  match patch with
  | none => 1
  | some p =>
    match findHunkFull p.data with
    | some n => n
    | none => 1

/-! ## The oracle environment and the action trace

The four external collaborators are modelled as oracle functions.  A value
`Except String α` models a JS promise/call that either resolves or throws;
the run records every external call it attempts in a `RunAction` trace. -/

/-- Oracles for the external collaborators of one run. -/
structure Env where
  /-- `octokit.pulls.listFiles` for `(owner, repo, prNumber)`. -/
  listFiles : String → String → Int → Except String (List ChangedFile)
  /-- `fs.existsSync`. -/
  fsExists : String → Bool
  /-- `eslint.lintFiles([p])`. -/
  lintFiles : String → Except String (List ESLintResult)
  /-- `fs.readFileSync`. -/
  readFile : String → Except String String
  /-- `openai.chat.completions.create`, abstracted to a function of the
  data the prompt is built from (file name, file content, patch); the
  payload is `response.choices[0]?.message?.content`, `none` when absent. -/
  aiComplete : String → String → Option String → Except String (Option String)
  /-- `octokit.pulls.createReview` with review body and inline comments. -/
  createReview : String → List ReviewComment → Except String Unit
  /-- `octokit.issues.createComment` with a body. -/
  createComment : String → Except String Unit

/-- Did the call resolve? -/
def isOkB : Except String Unit → Bool
  | .ok _ => true
  | .error _ => false

/-- One attempted external call, as recorded in the run trace. -/
inductive RunAction where
  /-- The change-set fetch. -/
  | listFilesCall (owner repo : String) (prNumber : Int)
  /-- One `eslint.lintFiles` invocation. -/
  | lintCall (path : String)
  /-- One `readFileSync` invocation. -/
  | readCall (path : String)
  /-- One completion-service invocation. -/
  | aiCall (fileName : String)
  /-- The batched `createReview` attempt with its body, inline comments and
  outcome. -/
  | reviewPost (body : String) (comments : List ReviewComment) (ok : Bool)
  /-- One `createComment` attempt with its body and outcome. -/
  | commentPost (body : String) (ok : Bool)
deriving DecidableEq, Repr

/-! ## The pipeline, translated from `reviewBot.ts` -/

/-- The extension test `/\.(ts|js|tsx|jsx)$/.test(filename)`. -/
def hasCodeExt (s : String) : Bool :=
  strEndsWith s ".ts" || strEndsWith s ".js" || strEndsWith s ".tsx" || strEndsWith s ".jsx"

/-- The changed-file filter of `reviewPullRequest`: supported extension and
status not `removed`. -/
def isCodeFile (f : ChangedFile) : Bool :=
  hasCodeExt f.filename && f.status != "removed"

/-- One iteration of the `runESLint` loop: skip paths absent from disk,
catch (and drop) per-path lint failures, append the results otherwise. -/
def lintStep (env : Env) (acc : List RunAction × List ESLintResult) (p : String) :
    List RunAction × List ESLintResult :=
  if env.fsExists p then
    match env.lintFiles p with
    | .ok rs => (acc.1 ++ [.lintCall p], acc.2 ++ rs)
    | .error _ => (acc.1 ++ [.lintCall p], acc.2)
  else acc

/-- `runESLint`: lint each existing path in turn, flattening the results. -/
def runESLint (env : Env) (filePaths : List String) : List RunAction × List ESLintResult :=
  filePaths.foldl (lintStep env) ([], [])

/-- The identifying marker prefixed to every AI suggestion body. -/
def aiMarker : String := "🤖 **AI Code Review**\n\n"

/-- `getAISuggestions`: call the completion service and post-filter the
response; transport errors are caught and yield `none`. -/
def getAISuggestions (env : Env) (fileName fileContent : String) (patch : Option String) :
    Option String :=
  match env.aiComplete fileName fileContent patch with
  | .error _ => none
  | .ok none => none
  | .ok (some content) =>
    let suggestion := jsTrim content
    if (suggestion != "") && !strIncludes (strToLower suggestion) "looks good"
        && decide (suggestion.length > 50) then
      some (aiMarker ++ suggestion)
    else none

/-- The body of a lint-error comment. -/
def eslintBody (m : LintMessage) : String :=
  "**ESLint Error**: " ++ m.message ++
    (match m.ruleId with
     | some rid => " (" ++ rid ++ ")"
     | none => "")

/-- The inner loop of the lint phase of `generateAIReview`: severity-2
messages of one result, in order, appended to the accumulator. -/
def lintCommentsOfResult (r : ESLintResult) (acc : List ReviewComment) : List ReviewComment :=
  r.messages.foldl
    (fun a m =>
      if m.severity == 2 then a ++ [⟨r.filePath, m.line, eslintBody m⟩] else a)
    acc

/-- One iteration of the AI phase of `generateAIReview` for one changed
file: skip non-code names, catch read failures, call the suggestion
generator and anchor the comment.  Returns the trace of calls attempted
for this file and the comment, if any. -/
def aiCommentFor (env : Env) (f : ChangedFile) : List RunAction × Option ReviewComment :=
  if hasCodeExt f.filename then
    match env.readFile f.filename with
    | .error _ => ([.readCall f.filename], none)
    | .ok content =>
      match getAISuggestions env f.filename content f.patch with
      | some s =>
        ([.readCall f.filename, .aiCall f.filename],
         some ⟨f.filename, anchorLine f.patch, s⟩)
      | none => ([.readCall f.filename, .aiCall f.filename], none)
  else ([], none)

/-- `generateAIReview`: lint-error comments first, then per-file AI
comments, both by pushing onto one list. -/
def generateAIReview (env : Env) (changedFiles : List ChangedFile)
    (eslintResults : List ESLintResult) : List RunAction × List ReviewComment :=
  let lintC := eslintResults.foldl (fun acc r => lintCommentsOfResult r acc) []
  changedFiles.foldl
    (fun acc f =>
      let tc := aiCommentFor env f
      (acc.1 ++ tc.1, acc.2 ++ tc.2.toList))
    ([], lintC)

/-- The general comment posted when there is nothing to report. -/
def noIssuesBody : String :=
  "✅ **AI Code Review Complete**\n\nNo major issues found! The code looks good to me. 🚀"

/-- The body of the batched review. -/
def reviewBody (n : Nat) : String :=
  "🤖 **Automated Code Review Results**\n\nFound " ++ toString n ++
    " items for review. Please check the inline comments below."

/-- The body of one fallback issue-level comment. -/
def fallbackBody (c : ReviewComment) : String :=
  "**" ++ c.path ++ ":" ++ toString c.line ++ "**\n\n" ++ c.body

/-- `postReviewComments`: general comment when the list is empty (its
failure propagates); otherwise one batched review attempt, falling back on
failure to at most 10 individual comment attempts whose own failures are
caught. -/
def postReviewComments (env : Env) (comments : List ReviewComment) :
    List RunAction × Except String Unit :=
  if comments.isEmpty then
    match env.createComment noIssuesBody with
    | .ok _ => ([.commentPost noIssuesBody true], .ok ())
    | .error e => ([.commentPost noIssuesBody false], .error e)
  else
    match env.createReview (reviewBody comments.length)
        (comments.map (fun c => (⟨c.path, c.line, c.body⟩ : ReviewComment))) with
    | .ok _ =>
      ([.reviewPost (reviewBody comments.length)
          (comments.map (fun c => (⟨c.path, c.line, c.body⟩ : ReviewComment))) true],
       .ok ())
    | .error _ =>
      ([.reviewPost (reviewBody comments.length)
          (comments.map (fun c => (⟨c.path, c.line, c.body⟩ : ReviewComment))) false] ++
        (comments.take 10).foldl
          (fun acc c =>
            acc ++ [.commentPost (fallbackBody c)
              (isOkB (env.createComment (fallbackBody c)))])
          [],
       .ok ())

/-- The string `parseInt` is applied to: `GITHUB_PR_NUMBER || '0'`, where
an unset or empty environment variable is falsy. -/
def prStrOf (githubPrNumber : Option String) : String :=
  match githubPrNumber with
  | none => "0"
  | some s => if s == "" then "0" else s

/-- The context check of `reviewPullRequest`: split `GITHUB_REPOSITORY` on
`/` taking elements 0 and 1, `parseInt(GITHUB_PR_NUMBER || '0')`, and
require all three values truthy (defined non-empty strings, a number that
is neither `NaN` nor 0). -/
def parseCtx (githubRepository githubPrNumber : Option String) :
    Option (String × String × Int) :=
  match githubRepository.bind (fun s => (jsSplitSlash s)[0]?),
      githubRepository.bind (fun s => (jsSplitSlash s)[1]?),
      jsParseInt (prStrOf githubPrNumber) with
  | some o, some r, some n =>
    if (o != "") && (r != "") && (n != 0) then some (o, r, n) else none
  | _, _, _ => none

/-- `reviewPullRequest`: context check, change-set fetch, filter, lint,
assemble, publish.  Returns the trace of attempted external calls and the
run's outcome. -/
def reviewPullRequest (env : Env) (githubRepository githubPrNumber : Option String) :
    List RunAction × Except String Unit :=
  match parseCtx githubRepository githubPrNumber with
  | none => ([], .error "Missing GitHub context variables")
  | some (owner, repo, prNumber) =>
    match env.listFiles owner repo prNumber with
    | .error e => ([.listFilesCall owner repo prNumber], .error e)
    | .ok changedFiles =>
      let codeFiles := changedFiles.filter isCodeFile
      if codeFiles.isEmpty then ([.listFilesCall owner repo prNumber], .ok ())
      else
        let lintRes := runESLint env (codeFiles.map (fun f => f.filename))
        let gen := generateAIReview env codeFiles lintRes.2
        let post := postReviewComments env gen.2
        ([.listFilesCall owner repo prNumber] ++ lintRes.1 ++ gen.1 ++ post.1, post.2)

/-! ## Characterization lemmas

The loops above push onto accumulators, exactly as the imperative source
does.  The lemmas below restate each loop as an order-preserving
`catMap`/`filterMap`/`map` so the claims can be settled structurally. -/

/-- Concatenation of the images of `f` over a list, in order. -/
def catMap {α β : Type} (f : α → List β) : List α → List β
  | [] => []
  | a :: as => f a ++ catMap f as

theorem catMap_nil {α β : Type} (f : α → List β) : catMap f [] = [] := rfl

theorem catMap_cons {α β : Type} (f : α → List β) (a : α) (as : List α) :
    catMap f (a :: as) = f a ++ catMap f as := rfl

theorem catMap_append {α β : Type} (f : α → List β) (l₁ l₂ : List α) :
    catMap f (l₁ ++ l₂) = catMap f l₁ ++ catMap f l₂ := by
  induction l₁ with
  | nil => simp [catMap]
  | cons a as ih => simp [catMap, ih]

theorem mem_catMap {α β : Type} {f : α → List β} {b : β} {l : List α} :
    b ∈ catMap f l ↔ ∃ a ∈ l, b ∈ f a := by
  induction l with
  | nil => simp [catMap]
  | cons a as ih => simp [catMap, ih]

/-- Trace contributed by one path of the `runESLint` loop. -/
def lintTraceOf (env : Env) (p : String) : List RunAction :=
  if env.fsExists p then [.lintCall p] else []

/-- Results contributed by one path of the `runESLint` loop. -/
def lintResultsOf (env : Env) (p : String) : List ESLintResult :=
  if env.fsExists p then
    match env.lintFiles p with
    | .ok rs => rs
    | .error _ => []
  else []

theorem lintStep_eq (env : Env) (acc : List RunAction × List ESLintResult) (p : String) :
    lintStep env acc p = (acc.1 ++ lintTraceOf env p, acc.2 ++ lintResultsOf env p) := by
  unfold lintStep lintTraceOf lintResultsOf
  cases h : env.fsExists p
  · simp [h]
  · cases hl : env.lintFiles p <;> simp [h, hl]

theorem runESLint_foldl (env : Env) (ps : List String) :
    ∀ acc, ps.foldl (lintStep env) acc =
      (acc.1 ++ catMap (lintTraceOf env) ps, acc.2 ++ catMap (lintResultsOf env) ps) := by
  induction ps with
  | nil => intro acc; simp [catMap]
  | cons p ps ih =>
    intro acc
    simp only [List.foldl_cons, lintStep_eq, ih, catMap_cons, List.append_assoc]

theorem runESLint_eq (env : Env) (ps : List String) :
    runESLint env ps = (catMap (lintTraceOf env) ps, catMap (lintResultsOf env) ps) := by
  unfold runESLint
  rw [runESLint_foldl]
  simp

/-- The lint-error comments of one ESLint result, in message order. -/
def errorCommentsOf (r : ESLintResult) : List ReviewComment :=
  (r.messages.filter (fun m => m.severity == 2)).map
    (fun m => ⟨r.filePath, m.line, eslintBody m⟩)

/-- All lint-error comments of the lint phase, in result order. -/
def errorComments (rs : List ESLintResult) : List ReviewComment :=
  catMap errorCommentsOf rs

theorem pushIf_foldl (fp : String) (ms : List LintMessage) :
    ∀ acc, ms.foldl
        (fun a m =>
          if m.severity == 2 then a ++ [(⟨fp, m.line, eslintBody m⟩ : ReviewComment)] else a)
        acc =
      acc ++ (ms.filter (fun m => m.severity == 2)).map
        (fun m => ⟨fp, m.line, eslintBody m⟩) := by
  induction ms with
  | nil => intro acc; simp
  | cons m ms ih =>
    intro acc
    rw [List.foldl_cons, ih]
    by_cases h : m.severity = 2 <;>
      simp [h, List.filter_cons, List.append_assoc]

theorem lintCommentsOfResult_eq (r : ESLintResult) (acc : List ReviewComment) :
    lintCommentsOfResult r acc = acc ++ errorCommentsOf r := by
  unfold lintCommentsOfResult errorCommentsOf
  exact pushIf_foldl r.filePath r.messages acc

theorem lintFold_eq (rs : List ESLintResult) :
    ∀ acc, rs.foldl (fun acc r => lintCommentsOfResult r acc) acc = acc ++ errorComments rs := by
  induction rs with
  | nil => intro acc; simp [errorComments, catMap]
  | cons r rs ih =>
    intro acc
    rw [List.foldl_cons, ih, lintCommentsOfResult_eq]
    simp [errorComments, catMap_cons, List.append_assoc]

/-- Trace contributed by one file of the AI phase. -/
def aiTraceOf (env : Env) (f : ChangedFile) : List RunAction :=
  (aiCommentFor env f).1

/-- The AI comments of the AI phase, in changed-file order. -/
def aiComments (env : Env) (files : List ChangedFile) : List ReviewComment :=
  files.filterMap (fun f => (aiCommentFor env f).2)

theorem genFold (env : Env) (files : List ChangedFile) :
    ∀ acc : List RunAction × List ReviewComment,
      files.foldl
          (fun acc f =>
            let tc := aiCommentFor env f
            (acc.1 ++ tc.1, acc.2 ++ tc.2.toList))
          acc =
        (acc.1 ++ catMap (aiTraceOf env) files, acc.2 ++ aiComments env files) := by
  induction files with
  | nil => intro acc; simp [catMap, aiComments]
  | cons f fs ih =>
    intro acc
    simp only [List.foldl_cons, ih, catMap_cons, aiComments, List.filterMap_cons, aiTraceOf]
    cases h : (aiCommentFor env f).2 <;> simp [h, List.append_assoc]

theorem generateAIReview_eq (env : Env) (files : List ChangedFile) (rs : List ESLintResult) :
    generateAIReview env files rs =
      (catMap (aiTraceOf env) files, errorComments rs ++ aiComments env files) := by
  unfold generateAIReview
  rw [genFold]
  rw [lintFold_eq rs []]
  simp

theorem foldl_push {α β : Type} (f : α → β) (l : List α) :
    ∀ acc : List β, l.foldl (fun a x => a ++ [f x]) acc = acc ++ l.map f := by
  induction l with
  | nil => intro acc; simp
  | cons x xs ih => intro acc; simp [List.foldl_cons, ih]

theorem map_eta (cs : List ReviewComment) :
    cs.map (fun c => (⟨c.path, c.line, c.body⟩ : ReviewComment)) = cs := by
  induction cs with
  | nil => rfl
  | cons c cs ih => simp [ih]

theorem catMap_length {α β : Type} (f : α → List β) (l : List α) :
    (catMap f l).length = (l.map (fun a => (f a).length)).sum := by
  induction l with
  | nil => simp [catMap]
  | cons a as ih => simp [catMap, ih]

/-- Every result returned by the `runESLint` loop came from one of the
queried paths, provided the analyzer reports results under the path it was
asked to lint. -/
theorem lintPath_mem (env : Env) (ps : List String)
    (h : ∀ p rs, env.lintFiles p = .ok rs → ∀ r ∈ rs, r.filePath = p) :
    ∀ r ∈ (runESLint env ps).2, r.filePath ∈ ps := by
  intro r hr
  rw [runESLint_eq] at hr
  obtain ⟨p, hp, hrp⟩ := mem_catMap.mp hr
  unfold lintResultsOf at hrp
  cases hfs : env.fsExists p with
  | false => rw [hfs] at hrp; simp at hrp
  | true =>
    rw [hfs] at hrp
    cases hlf : env.lintFiles p with
    | error e => rw [hlf] at hrp; simp at hrp
    | ok rs =>
      rw [hlf] at hrp
      simp at hrp
      rw [h p rs hlf r hrp]
      exact hp

/-- An AI comment produced for a changed file carries that file's name as
its path. -/
theorem aiCommentFor_path (env : Env) (f : ChangedFile) (c : ReviewComment)
    (h : (aiCommentFor env f).2 = some c) : c.path = f.filename := by
  unfold aiCommentFor at h
  split at h
  · split at h
    · simp at h
    · split at h
      · simp at h
        subst h
        rfl
      · simp at h
  · simp at h

/-- Concrete environment used by witnesses: one changed file, a lint
result with one error under the queried path, an 80-character completion
response, a failing batched-review call. -/
def envW : Env where
  listFiles := fun _ _ _ =>
    .ok [⟨"a.ts", "modified", some "@@ -1,2 +3,4 @@\n+x"⟩]
  fsExists := fun _ => true
  lintFiles := fun p => .ok [⟨p, [⟨some "semi", 2, "Missing semicolon", 7, 1⟩]⟩]
  readFile := fun _ => .ok "const x = 1"
  aiComplete := fun _ _ _ => .ok (some (String.mk (List.replicate 80 'a')))
  createReview := fun _ _ => .error "422"
  createComment := fun _ => .ok ()

/-- C1: every comment the assembler delivers to the publisher — lint-error
comments and AI-suggestion comments alike — has a `path` equal to the
`filename` of some changed file in the filtered change set of the run;
no comment targets a file outside that set.  The hypothesis is the
analyzer adapter's contract: `lintFiles [p]` reports its findings under
the queried path `p`. -/
theorem comment_paths_in_changeset (env : Env) (changedFiles : List ChangedFile)
    (hlint : ∀ p rs, env.lintFiles p = .ok rs → ∀ r ∈ rs, r.filePath = p) :
    ∀ c ∈ (generateAIReview env (changedFiles.filter isCodeFile)
        (runESLint env ((changedFiles.filter isCodeFile).map (fun f => f.filename))).2).2,
      ∃ f ∈ changedFiles.filter isCodeFile, c.path = f.filename := by
  intro c hc
  rw [generateAIReview_eq] at hc
  rcases List.mem_append.mp hc with hcl | hca
  · obtain ⟨r, hr, hcr⟩ := mem_catMap.mp hcl
    have hpath : r.filePath ∈ (changedFiles.filter isCodeFile).map (fun f => f.filename) :=
      lintPath_mem env _ hlint r hr
    obtain ⟨f, hf, hff⟩ := List.mem_map.mp hpath
    have hcp : c.path = r.filePath := by
      unfold errorCommentsOf at hcr
      simp only [List.mem_map] at hcr
      obtain ⟨m, _, rfl⟩ := hcr
      rfl
    exact ⟨f, hf, by rw [hcp, hff]⟩
  · obtain ⟨f, hf, hcf⟩ := List.mem_filterMap.mp hca
    exact ⟨f, hf, aiCommentFor_path env f c hcf⟩

/-- Witness for C1 at a concrete run: the lint-error comment produced by
`envW` targets a file of the filtered change set. -/
theorem comment_paths_in_changeset_witness :
    ∃ f ∈ ([⟨"a.ts", "modified", none⟩, ⟨"b.md", "modified", none⟩] :
        List ChangedFile).filter isCodeFile,
      (⟨"a.ts", 7, "**ESLint Error**: Missing semicolon (semi)"⟩ : ReviewComment).path =
        f.filename :=
  comment_paths_in_changeset envW [⟨"a.ts", "modified", none⟩, ⟨"b.md", "modified", none⟩]
    (by
      intro p rs h r hr
      injection h with h2
      subst h2
      simp at hr
      subst hr
      rfl)
    ⟨"a.ts", 7, "**ESLint Error**: Missing semicolon (semi)"⟩ (by decide)

/-- C2: the assembled list is exactly the lint-error comments (in the
order the findings were encountered) followed by the AI-suggestion
comments (in the order the files were encountered); no sorting or merging
by line is performed across the two groups. -/
theorem assembled_comment_order (env : Env) (files : List ChangedFile)
    (rs : List ESLintResult) :
    (generateAIReview env files rs).2 = errorComments rs ++ aiComments env files := by
  rw [generateAIReview_eq]

/-- C5: exactly the severity-2 (error) findings are emitted as lint
comments — anchored at the finding's line, with the lint-error body
including the rule id when present — and severity-1 (warning) findings
never produce a comment. -/
theorem lint_errors_exactly (env : Env) (files : List ChangedFile)
    (rs : List ESLintResult) :
    (∀ r ∈ rs, ∀ m ∈ r.messages, m.severity = 2 →
        (⟨r.filePath, m.line, eslintBody m⟩ : ReviewComment) ∈
          (generateAIReview env files rs).2) ∧
    (∀ c ∈ errorComments rs, ∃ r ∈ rs, ∃ m ∈ r.messages,
        m.severity = 2 ∧ c = ⟨r.filePath, m.line, eslintBody m⟩) ∧
    (errorComments rs).length =
      (rs.map (fun r => (r.messages.filter (fun m => m.severity == 2)).length)).sum := by
  refine ⟨?_, ?_, ?_⟩
  · intro r hr m hm h2
    rw [generateAIReview_eq]
    rw [List.mem_append]
    left
    unfold errorComments
    refine mem_catMap.mpr ⟨r, hr, ?_⟩
    unfold errorCommentsOf
    exact List.mem_map.mpr ⟨m, List.mem_filter.mpr ⟨hm, by simp [h2]⟩, rfl⟩
  · intro c hc
    unfold errorComments at hc
    obtain ⟨r, hr, hcr⟩ := mem_catMap.mp hc
    unfold errorCommentsOf at hcr
    simp only [List.mem_map, List.mem_filter] at hcr
    obtain ⟨m, ⟨hm, h2⟩, rfl⟩ := hcr
    exact ⟨r, hr, m, hm, by simpa using h2, rfl⟩
  · unfold errorComments
    rw [catMap_length]
    simp [errorCommentsOf]

/-- Witness for C5 at a concrete run: the severity-2 finding of `envW`
appears as a lint comment. -/
theorem lint_errors_exactly_witness :
    (⟨"a.ts", 7, eslintBody ⟨some "semi", 2, "Missing semicolon", 7, 1⟩⟩ : ReviewComment) ∈
      (generateAIReview envW []
        [⟨"a.ts", [⟨some "semi", 2, "Missing semicolon", 7, 1⟩,
          ⟨none, 1, "unused variable", 8, 1⟩]⟩]).2 :=
  (lint_errors_exactly envW []
      [⟨"a.ts", [⟨some "semi", 2, "Missing semicolon", 7, 1⟩,
        ⟨none, 1, "unused variable", 8, 1⟩]⟩]).1
    ⟨"a.ts", [⟨some "semi", 2, "Missing semicolon", 7, 1⟩,
      ⟨none, 1, "unused variable", 8, 1⟩]⟩ (by simp)
    ⟨some "semi", 2, "Missing semicolon", 7, 1⟩ (by simp) rfl

/-- Reduction of `getAISuggestions` when the completion call resolves with
a present payload. -/
theorem getAISuggestions_ok_some (env : Env) (fn content : String) (patch : Option String)
    (s : String) (h : env.aiComplete fn content patch = .ok (some s)) :
    getAISuggestions env fn content patch =
      (if ((jsTrim s != "") && !strIncludes (strToLower (jsTrim s)) "looks good"
          && decide ((jsTrim s).length > 50)) = true
       then some (aiMarker ++ jsTrim s)
       else none) := by
  unfold getAISuggestions
  rw [h]

/-- Reduction of `getAISuggestions` when the payload is absent. -/
theorem getAISuggestions_ok_none (env : Env) (fn content : String) (patch : Option String)
    (h : env.aiComplete fn content patch = .ok none) :
    getAISuggestions env fn content patch = none := by
  unfold getAISuggestions
  rw [h]

/-- Reduction of `getAISuggestions` when the completion call throws: the
error is caught and treated as no suggestion. -/
theorem getAISuggestions_error (env : Env) (fn content : String) (patch : Option String)
    (e : String) (h : env.aiComplete fn content patch = .error e) :
    getAISuggestions env fn content patch = none := by
  unfold getAISuggestions
  rw [h]

/-- The keep-condition of the post-filter, restated as the negation of the
spec's discard disjunction. -/
theorem postfilterCond (t : String) :
    (((t != "") && !strIncludes (strToLower t) "looks good"
        && decide (t.length > 50)) = true) ↔
      ¬(t = "" ∨ t.length ≤ 50 ∨ strIncludes (strToLower t) "looks good" = true) := by
  push_neg
  simp only [Bool.and_eq_true, bne_iff_ne, ne_eq, Bool.not_eq_true', decide_eq_true_eq]
  constructor
  · rintro ⟨⟨a, b⟩, c⟩
    exact ⟨a, by omega, by simp [b]⟩
  · rintro ⟨a, b, c⟩
    exact ⟨⟨a, by simp [c]⟩, by omega⟩

/-- C3: the suggestion generator yields no suggestion when the response is
absent, or its trimmed length is at most 50 characters (in particular when
it is empty), or it contains `looks good` case-insensitively; otherwise it
yields exactly one suggestion consisting of the identifying marker
followed by the trimmed response. -/
theorem ai_postfilter (env : Env) (fileName fileContent : String) (patch : Option String) :
    (env.aiComplete fileName fileContent patch = .ok none →
      getAISuggestions env fileName fileContent patch = none) ∧
    (∀ s, env.aiComplete fileName fileContent patch = .ok (some s) →
      ((getAISuggestions env fileName fileContent patch = none ↔
          (jsTrim s = "" ∨ (jsTrim s).length ≤ 50 ∨
            strIncludes (strToLower (jsTrim s)) "looks good" = true)) ∧
        (¬(jsTrim s = "" ∨ (jsTrim s).length ≤ 50 ∨
            strIncludes (strToLower (jsTrim s)) "looks good" = true) →
          getAISuggestions env fileName fileContent patch =
            some (aiMarker ++ jsTrim s)))) := by
  constructor
  · intro h
    exact getAISuggestions_ok_none env fileName fileContent patch h
  · intro s hs
    rw [getAISuggestions_ok_some env fileName fileContent patch s hs]
    by_cases hc : ((jsTrim s != "") && !strIncludes (strToLower (jsTrim s)) "looks good"
        && decide ((jsTrim s).length > 50)) = true
    · rw [if_pos hc]
      have hd := (postfilterCond (jsTrim s)).mp hc
      exact ⟨⟨fun hn => absurd hn (by simp), fun hdd => absurd hdd hd⟩, fun _ => rfl⟩
    · rw [if_neg hc]
      have hd : jsTrim s = "" ∨ (jsTrim s).length ≤ 50 ∨
          strIncludes (strToLower (jsTrim s)) "looks good" = true := by
        by_contra hdd
        exact hc ((postfilterCond (jsTrim s)).mpr hdd)
      exact ⟨⟨fun _ => hd, fun _ => rfl⟩, fun hdd => absurd hd hdd⟩

/-- Environment whose completion service answers exactly `Looks good!`. -/
def envLG : Env :=
  { envW with aiComplete := fun _ _ _ => .ok (some "Looks good!") }

/-- Witness for C3: a response of exactly `Looks good!` yields no
suggestion, while an 80-character response with no affirmation phrase
yields exactly one, prefixed with the marker. -/
theorem ai_postfilter_witness :
    getAISuggestions envLG "a.ts" "const x = 1" none = none ∧
    getAISuggestions envW "a.ts" "const x = 1" none =
      some (aiMarker ++ String.mk (List.replicate 80 'a')) := by
  constructor
  · exact ((ai_postfilter envLG "a.ts" "const x = 1" none).2 "Looks good!" rfl).1.mpr
      (by decide)
  · have h := ((ai_postfilter envW "a.ts" "const x = 1" none).2
      (String.mk (List.replicate 80 'a')) rfl).2 (by decide)
    rw [h]
    decide

/-- Publisher behavior on a non-empty list whose batched call fails: the
batched attempt is recorded, then one individual attempt per comment of
the first ten, each recording its own outcome. -/
theorem post_nonempty_fail (env : Env) (comments : List ReviewComment) (e : String)
    (hne : comments ≠ [])
    (hfail : env.createReview (reviewBody comments.length) comments = .error e) :
    postReviewComments env comments =
      (.reviewPost (reviewBody comments.length) comments false ::
        (comments.take 10).map
          (fun c => .commentPost (fallbackBody c) (isOkB (env.createComment (fallbackBody c)))),
       .ok ()) := by
  unfold postReviewComments
  rw [if_neg (by simp [hne]), map_eta, hfail,
    foldl_push
      (fun c => RunAction.commentPost (fallbackBody c) (isOkB (env.createComment (fallbackBody c))))
      (comments.take 10)]
  rfl

/-- C6: when the batched review-post fails and the assembled list has more
than 10 entries, exactly the first 10 comments are attempted as individual
issue-level posts; the attempt list is a `map` over `comments.take 10`, so
every one of the 10 attempts is made and recorded with its own outcome,
independent of the outcomes of the others. -/
theorem fallback_first_ten (env : Env) (comments : List ReviewComment) (e : String)
    (hfail : env.createReview (reviewBody comments.length) comments = .error e)
    (hlen : 10 < comments.length) :
    (postReviewComments env comments).1 =
      .reviewPost (reviewBody comments.length) comments false ::
        (comments.take 10).map
          (fun c => .commentPost (fallbackBody c) (isOkB (env.createComment (fallbackBody c)))) ∧
    (comments.take 10).length = 10 ∧
    (postReviewComments env comments).2 = .ok () := by
  have hne : comments ≠ [] := by
    intro h
    subst h
    simp at hlen
  rw [post_nonempty_fail env comments e hne hfail]
  refine ⟨rfl, ?_, rfl⟩
  rw [List.length_take]
  omega

/-- Fifteen assembled comments on successive lines. -/
def comsF : List ReviewComment :=
  (List.range 15).map (fun i => ⟨"a.ts", i + 1, "x"⟩)

/-- Environment whose batched review call fails and whose individual
comment post fails exactly for comment #3. -/
def envF : Env :=
  { envW with
    createComment := fun b =>
      if b = fallbackBody ⟨"a.ts", 3, "x"⟩ then .error "boom" else .ok () }

/-- Witness for C6 at a concrete 15-comment run: exactly 10 individual
attempts, and the failure of attempt #3 does not prevent attempts #4–#10,
which are present in the trace with successful outcomes. -/
theorem fallback_first_ten_witness :
    ((postReviewComments envF comsF).1 =
      .reviewPost (reviewBody comsF.length) comsF false ::
        (comsF.take 10).map
          (fun c => .commentPost (fallbackBody c) (isOkB (envF.createComment (fallbackBody c)))) ∧
      (comsF.take 10).length = 10 ∧
      (postReviewComments envF comsF).2 = .ok ()) ∧
    RunAction.commentPost (fallbackBody ⟨"a.ts", 3, "x"⟩) false ∈ (postReviewComments envF comsF).1 ∧
    RunAction.commentPost (fallbackBody ⟨"a.ts", 4, "x"⟩) true ∈ (postReviewComments envF comsF).1 ∧
    RunAction.commentPost (fallbackBody ⟨"a.ts", 10, "x"⟩) true ∈ (postReviewComments envF comsF).1 :=
  ⟨fallback_first_ten envF comsF "422" rfl (by decide), by decide, by decide, by decide⟩

/-- C7: an empty assembled list produces exactly one general comment
attempt and no batched review; a non-empty list produces a batched review
attempt first, whose inline comments are exactly the assembled list,
unmodified. -/
theorem publisher_empty_vs_batch (env : Env) (comments : List ReviewComment) :
    (comments = [] →
      (postReviewComments env comments).1 =
        [.commentPost noIssuesBody (isOkB (env.createComment noIssuesBody))]) ∧
    (comments ≠ [] →
      (postReviewComments env comments).1.head? =
        some (.reviewPost (reviewBody comments.length) comments
          (isOkB (env.createReview (reviewBody comments.length) comments)))) := by
  constructor
  · rintro rfl
    unfold postReviewComments
    cases h : env.createComment noIssuesBody <;> simp [h, isOkB]
  · intro hne
    unfold postReviewComments
    rw [if_neg (by simp [hne]), map_eta]
    cases h : env.createReview (reviewBody comments.length) comments <;> simp [h, isOkB]

/-- Witness for C7: the empty list posts the single general comment; a
one-element list starts with the batched review carrying exactly that
list. -/
theorem publisher_empty_vs_batch_witness :
    (postReviewComments envW ([] : List ReviewComment)).1 =
      [.commentPost noIssuesBody (isOkB (envW.createComment noIssuesBody))] ∧
    (postReviewComments envW [⟨"a.ts", 1, "x"⟩]).1.head? =
      some (.reviewPost (reviewBody 1) [⟨"a.ts", 1, "x"⟩]
        (isOkB (envW.createReview (reviewBody 1) [⟨"a.ts", 1, "x"⟩]))) :=
  ⟨(publisher_empty_vs_batch envW []).1 rfl,
   by
     have h := (publisher_empty_vs_batch envW [⟨"a.ts", 1, "x"⟩]).2 (by simp)
     simpa using h⟩

/-- C8: when the changed-file set is empty after the extension-and-status
filter, the run terminates successfully having attempted only the
change-set fetch — no lint call, no read, no completion call and no
publisher call appear in the trace, so zero comments of any kind are
posted. -/
theorem empty_changeset_early_exit (env : Env) (gr prv : Option String)
    (o r : String) (n : Int) (files : List ChangedFile)
    (hctx : parseCtx gr prv = some (o, r, n))
    (hlist : env.listFiles o r n = .ok files)
    (hempty : files.filter isCodeFile = []) :
    reviewPullRequest env gr prv = ([.listFilesCall o r n], .ok ()) := by
  simp [reviewPullRequest, hctx, hlist, hempty]

/-- Environment whose pull request touches only a non-code file. -/
def envW8 : Env :=
  { envW with listFiles := fun _ _ _ => .ok [⟨"README.md", "modified", none⟩] }

/-- Witness for C8 at a concrete run with one markdown file. -/
theorem empty_changeset_early_exit_witness :
    reviewPullRequest envW8 (some "o/r") (some "5") = ([.listFilesCall "o" "r" 5], .ok ()) :=
  empty_changeset_early_exit envW8 (some "o/r") (some "5") "o" "r" 5
    [⟨"README.md", "modified", none⟩] (by decide) rfl (by decide)

/-- A changed file for which reading or the completion call fails
contributes no AI comment. -/
theorem aiCommentFor_fail (env : Env) (f : ChangedFile)
    (h : (∃ e, env.readFile f.filename = .error e) ∨
      (∃ content e, env.readFile f.filename = .ok content ∧
        env.aiComplete f.filename content f.patch = .error e)) :
    (aiCommentFor env f).2 = none := by
  unfold aiCommentFor
  by_cases hx : hasCodeExt f.filename = true
  · rw [if_pos hx]
    rcases h with ⟨e, he⟩ | ⟨content, e, hc, he⟩
    · simp [he]
    · simp [hc, getAISuggestions_error env f.filename content f.patch e he]
  · rw [if_neg hx]

/-- C9: a per-file analyzer failure (path missing from disk or a thrown
lint error) and a per-file read/completion failure are absorbed — the
failing file contributes nothing, the remaining files are processed
exactly as they would be on their own — and the publisher is still
invoked (every publisher run attempts at least one post). -/
theorem perfile_failures_nonfatal (env : Env) :
    (∀ (pre suf : List String) (p : String),
      (env.fsExists p = false ∨ ∃ e, env.lintFiles p = .error e) →
      (runESLint env (pre ++ p :: suf)).2 = (runESLint env pre).2 ++ (runESLint env suf).2) ∧
    (∀ (pre suf : List ChangedFile) (f : ChangedFile) (rs : List ESLintResult),
      ((∃ e, env.readFile f.filename = .error e) ∨
        (∃ content e, env.readFile f.filename = .ok content ∧
          env.aiComplete f.filename content f.patch = .error e)) →
      (generateAIReview env (pre ++ f :: suf) rs).2 =
        errorComments rs ++ (aiComments env pre ++ aiComments env suf)) ∧
    (∀ cs : List ReviewComment, (postReviewComments env cs).1 ≠ []) := by
  refine ⟨?_, ?_, ?_⟩
  · intro pre suf p h
    have hnil : lintResultsOf env p = [] := by
      unfold lintResultsOf
      rcases h with h | ⟨e, he⟩
      · simp [h]
      · cases hfs : env.fsExists p <;> simp [hfs, he]
    rw [runESLint_eq, runESLint_eq, runESLint_eq]
    simp [catMap_append, catMap_cons, hnil]
  · intro pre suf f rs h
    have hnone := aiCommentFor_fail env f h
    rw [generateAIReview_eq]
    unfold aiComments
    simp [List.filterMap_append, List.filterMap_cons, hnone]
  · intro cs
    unfold postReviewComments
    by_cases h : cs.isEmpty = true
    · rw [if_pos h]
      cases hc : env.createComment noIssuesBody <;> simp
    · rw [if_neg h]
      cases hc : env.createReview (reviewBody cs.length)
          (cs.map (fun c => (⟨c.path, c.line, c.body⟩ : ReviewComment))) <;> simp [hc]

/-- Environment where `gone.ts` is absent from disk and reading `b.ts`
throws. -/
def env9 : Env :=
  { envW with
    fsExists := fun p => p != "gone.ts",
    readFile := fun p => if p = "b.ts" then .error "ENOENT" else .ok "const x = 1" }

/-- Witness for C9 at a concrete run: the missing path and the unreadable
file contribute nothing while the neighbouring files are processed, and
the publisher still posts. -/
theorem perfile_failures_nonfatal_witness :
    (runESLint env9 (["a.ts"] ++ "gone.ts" :: ["c.ts"])).2 =
      (runESLint env9 ["a.ts"]).2 ++ (runESLint env9 ["c.ts"]).2 ∧
    (generateAIReview env9 ([⟨"a.ts", "modified", none⟩] ++ ⟨"b.ts", "modified", none⟩ ::
        [⟨"c.ts", "modified", none⟩]) []).2 =
      errorComments [] ++ (aiComments env9 [⟨"a.ts", "modified", none⟩] ++
        aiComments env9 [⟨"c.ts", "modified", none⟩]) ∧
    (postReviewComments env9 []).1 ≠ [] :=
  ⟨(perfile_failures_nonfatal env9).1 ["a.ts"] ["c.ts"] "gone.ts" (.inl (by decide)),
   (perfile_failures_nonfatal env9).2.1 [⟨"a.ts", "modified", none⟩]
     [⟨"c.ts", "modified", none⟩] ⟨"b.ts", "modified", none⟩ []
     (.inl ⟨"ENOENT", rfl⟩),
   (perfile_failures_nonfatal env9).2.2 []⟩

/-- A falsy parsed PR number (`NaN` or 0) fails the context check whatever
the repository variable holds. -/
theorem parseCtx_pr_bad (gr prv : Option String)
    (h : jsParseInt (prStrOf prv) = none ∨ jsParseInt (prStrOf prv) = some 0) :
    parseCtx gr prv = none := by
  unfold parseCtx
  rcases h with h | h <;> rw [h] <;>
    cases gr.bind (fun s => (jsSplitSlash s)[0]?) <;>
    cases gr.bind (fun s => (jsSplitSlash s)[1]?) <;>
    simp

/-- Whenever the context check passes, the first attempted external call
of the run is the change-set fetch with the parsed context. -/
theorem reviewPullRequest_head (env : Env) (gr prv : Option String)
    (o r : String) (n : Int) (hctx : parseCtx gr prv = some (o, r, n)) :
    (reviewPullRequest env gr prv).1.head? = some (.listFilesCall o r n) := by
  unfold reviewPullRequest
  rw [hctx]
  cases hl : env.listFiles o r n with
  | error e => simp [hl]
  | ok files =>
    simp only [hl]
    split <;> rfl

/-- C10: with `GITHUB_PR_NUMBER` unset, `'0'`, or a string that does not
parse to a number, the run throws `Missing GitHub context variables`
before any external call (the trace is empty); but a negative value such
as `-1` passes the check and is used as the PR number of the change-set
fetch, although it is not a positive PR number. -/
theorem pr_number_check (env : Env) :
    (∀ gr s : Option String,
      (s = none ∨ s = some "0" ∨ (∃ str, s = some str ∧ jsParseInt str = none)) →
      reviewPullRequest env gr s = ([], .error "Missing GitHub context variables")) ∧
    (∀ (s : String) (n : Int), jsParseInt s = some n → n < 0 →
      parseCtx (some "o/r") (some s) = some ("o", "r", n) ∧
      (reviewPullRequest env (some "o/r") (some s)).1.head? =
        some (.listFilesCall "o" "r" n) ∧
      ¬(0 : Int) < n) := by
  constructor
  · intro gr s hs
    have hbad : jsParseInt (prStrOf s) = none ∨ jsParseInt (prStrOf s) = some 0 := by
      rcases hs with rfl | rfl | ⟨str, rfl, hstr⟩
      · right; decide
      · right; decide
      · by_cases he : str = ""
        · subst he; right; decide
        · left
          have hb : (str == "") = false := by
            by_cases hbe : (str == "") = true
            · exact absurd (eq_of_beq hbe) he
            · simpa using hbe
          simpa [prStrOf, hb] using hstr
    unfold reviewPullRequest
    rw [parseCtx_pr_bad gr s hbad]
  · intro s n hp hneg
    have hs0 : (s == "") = false := by
      by_cases h : (s == "") = true
      · exfalso
        rw [eq_of_beq h] at hp
        rw [show jsParseInt "" = none by decide] at hp
        cases hp
      · simpa using h
    have hctx : parseCtx (some "o/r") (some s) = some ("o", "r", n) := by
      unfold parseCtx prStrOf
      have h0 : (jsSplitSlash "o/r")[0]? = some "o" := by decide
      have h1 : (jsSplitSlash "o/r")[1]? = some "r" := by decide
      simp only [Option.some_bind, h0, h1, hs0, Bool.false_eq_true, if_false, hp]
      have hn : (n != 0) = true := by
        simp only [bne_iff_ne, ne_eq]
        omega
      simp [hn]
    exact ⟨hctx, reviewPullRequest_head env (some "o/r") (some s) "o" "r" n hctx,
      by omega⟩

/-- Witness for C10: unset, `'0'` and `'abc'` all abort with an empty
trace; `'-1'` reaches the change-set fetch as the PR number. -/
theorem pr_number_check_witness :
    reviewPullRequest envW (some "o/r") none =
      ([], .error "Missing GitHub context variables") ∧
    reviewPullRequest envW (some "o/r") (some "0") =
      ([], .error "Missing GitHub context variables") ∧
    reviewPullRequest envW (some "o/r") (some "abc") =
      ([], .error "Missing GitHub context variables") ∧
    (parseCtx (some "o/r") (some "-1") = some ("o", "r", -1) ∧
      (reviewPullRequest envW (some "o/r") (some "-1")).1.head? =
        some (.listFilesCall "o" "r" (-1)) ∧
      ¬(0 : Int) < -1) :=
  ⟨(pr_number_check envW).1 (some "o/r") none (.inl rfl),
   (pr_number_check envW).1 (some "o/r") (some "0") (.inr (.inl rfl)),
   (pr_number_check envW).1 (some "o/r") (some "abc") (.inr (.inr ⟨"abc", rfl, by decide⟩)),
   (pr_number_check envW).2 "-1" (-1) (by decide) (by decide)⟩

/-! ## The anchor rule (C4)

The source's regex `@@ -\d+,?\d* \+(\d+)` does not require the closing
`,d @@` of a full hunk header and is not anchored to line starts, so its
first match need not be the first full-form hunk header of the patch.  The
lemmas below reduce the matcher step by step for a patch that begins with
a full header. -/

/-- `takeWhile`/`dropWhile` on a run of satisfying characters followed by
a non-satisfying one. -/
theorem takeWhile_all_not (p : Char → Bool) (y : Char) (ys : List Char) (hy : p y = false) :
    ∀ xs : List Char, (∀ x ∈ xs, p x = true) →
      (xs ++ y :: ys).takeWhile p = xs ∧ (xs ++ y :: ys).dropWhile p = y :: ys := by
  intro xs
  induction xs with
  | nil =>
    intro _
    simp [List.takeWhile_cons, List.dropWhile_cons, hy]
  | cons a as ih =>
    intro hxs
    have ha : p a = true := hxs a (by simp)
    have h2 := ih (fun x hx => hxs x (by simp [hx]))
    simp [List.takeWhile_cons, List.dropWhile_cons, ha, h2.1, h2.2]

/-- The `,?\d*` step of the matcher. -/
def afterComma (r1 : List Char) : List Char :=
  match r1 with
  | ',' :: t => t.dropWhile Char.isDigit
  | t => t

/-- The ` \+(\d+)` step of the matcher. -/
def capTail (r2 : List Char) : Option Nat :=
  match r2 with
  | ' ' :: '+' :: r3 =>
    if (r3.takeWhile Char.isDigit).isEmpty then none
    else some (digitsToNat (r3.takeWhile Char.isDigit))
  | _ => none

theorem hunkAt_cons (R : List Char) :
    hunkAt ('@' :: '@' :: ' ' :: '-' :: R) =
      (if (R.takeWhile Char.isDigit).isEmpty then none
       else capTail (afterComma (R.dropWhile Char.isDigit))) := rfl

theorem afterComma_cons (X : List Char) :
    afterComma (',' :: X) = X.dropWhile Char.isDigit := rfl

theorem capTail_cons (C : List Char) :
    capTail (' ' :: '+' :: C) =
      (if (C.takeWhile Char.isDigit).isEmpty then none
       else some (digitsToNat (C.takeWhile Char.isDigit))) := rfl

theorem findHunk_cons (c : Char) (cs : List Char) :
    findHunk (c :: cs) =
      (match hunkAt (c :: cs) with
       | some n => some n
       | none => findHunk cs) := rfl

theorem anchorLine_some (p : String) :
    anchorLine (some p) =
      (match findHunk p.data with
       | some n => n
       | none => 1) := rfl

/-- A patch whose text is the full hunk header `@@ -a,b +c,d @@` followed
by `rest`. -/
def fullHunkStr (a b c d rest : List Char) : String :=
  ⟨'@' :: '@' :: ' ' :: '-' ::
    (a ++ ',' :: (b ++ ' ' :: '+' :: (c ++ ',' :: (d ++ ' ' :: '@' :: '@' :: rest))))⟩

/-- Counterexample to C4 as stated: in the patch
`" @@ -1,2 +5 x\n@@ -10,5 +20,6 @@"` the first (and only) hunk header of
the form `@@ -a,b +c,d @@` carries new-file start line 20 — the claim's
rule anchors at 20 — but the code's unanchored relaxed regex matches the
earlier text `@@ -1,2 +5` and anchors at 5. -/
theorem anchor_claim_counterexample :
    anchorLine (some " @@ -1,2 +5 x\n@@ -10,5 +20,6 @@") = 5 ∧
    specAnchorLine (some " @@ -1,2 +5 x\n@@ -10,5 +20,6 @@") = 20 ∧
    (5 : Nat) ≠ 20 := by decide

/-- C4 amended: the anchor is the number captured by the leftmost match of
the relaxed pattern `@@ -<digits>[,<digits>] +<digits>` (the closing
`,d @@` is not required and the match need not be a hunk header).  In
particular, when the patch begins with a full hunk header
`@@ -a,b +c,d @@` — as GitHub-supplied patches do — the anchor is that
header's new-file start line `c`; and the anchor defaults to 1 when the
patch is absent or the pattern does not match at all. -/
theorem anchor_line_amended (a b c d rest : List Char)
    (ha : a ≠ []) (had : ∀ ch ∈ a, ch.isDigit = true)
    (hbd : ∀ ch ∈ b, ch.isDigit = true)
    (hc : c ≠ []) (hcd : ∀ ch ∈ c, ch.isDigit = true) :
    anchorLine (some (fullHunkStr a b c d rest)) = digitsToNat c ∧
    anchorLine none = 1 ∧
    (∀ p : String, findHunk p.data = none → anchorLine (some p) = 1) := by
  refine ⟨?_, rfl, ?_⟩
  · have h1 := takeWhile_all_not Char.isDigit ','
      (b ++ ' ' :: '+' :: (c ++ ',' :: (d ++ ' ' :: '@' :: '@' :: rest))) (by decide) a had
    have h2 := takeWhile_all_not Char.isDigit ' '
      ('+' :: (c ++ ',' :: (d ++ ' ' :: '@' :: '@' :: rest))) (by decide) b hbd
    have h3 := takeWhile_all_not Char.isDigit ','
      (d ++ ' ' :: '@' :: '@' :: rest) (by decide) c hcd
    have hae : ¬(a.isEmpty = true) := by
      cases a with
      | nil => exact absurd rfl ha
      | cons x xs => simp
    have hce : ¬(c.isEmpty = true) := by
      cases c with
      | nil => exact absurd rfl hc
      | cons x xs => simp
    have hm : hunkAt ('@' :: '@' :: ' ' :: '-' ::
        (a ++ ',' :: (b ++ ' ' :: '+' :: (c ++ ',' :: (d ++ ' ' :: '@' :: '@' :: rest))))) =
        some (digitsToNat c) := by
      rw [hunkAt_cons, h1.1, h1.2, if_neg hae, afterComma_cons, h2.2, capTail_cons, h3.1,
        if_neg hce]
    rw [anchorLine_some,
      show (fullHunkStr a b c d rest).data =
        '@' :: '@' :: ' ' :: '-' ::
          (a ++ ',' :: (b ++ ' ' :: '+' :: (c ++ ',' :: (d ++ ' ' :: '@' :: '@' :: rest))))
        from rfl,
      findHunk_cons, hm]
  · intro p hp
    rw [anchorLine_some, hp]

/-- Witness for the amended C4: the spec's example header `@@ -10,5 +20,6 @@`
anchors at 20; an absent patch and a patch with no match anchor at 1. -/
theorem anchor_line_amended_witness :
    fullHunkStr ['1', '0'] ['5'] ['2', '0'] ['6'] [] = "@@ -10,5 +20,6 @@" ∧
    anchorLine (some (fullHunkStr ['1', '0'] ['5'] ['2', '0'] ['6'] [])) = 20 ∧
    anchorLine none = 1 ∧
    anchorLine (some "no hunk header here") = 1 := by
  have h := anchor_line_amended ['1', '0'] ['5'] ['2', '0'] ['6'] []
    (by decide) (by decide) (by decide) (by decide) (by decide)
  refine ⟨by decide, ?_, h.2.1, h.2.2 "no hunk header here" (by decide)⟩
  rw [h.1]
  decide

end ReviewBot
